import Mathlib

/-!
A verification development for the `edcert-compressor` crate.

The crate has two components:

* `CertificateCompressor` (`src/certificate_compressor.rs`): encodes a
  certificate as a JSON string, compresses it with LZMA (xz container), then
  overwrites the first six bytes of the compressed stream with a 3-byte format
  marker `b"edc"` and the 3-byte format version
  `CERTIFICATE_COMPRESSOR_FORMAT_VERSION`.  Decoding reads the version from
  bytes 3..6 (the literal `b"ert"` there denotes the legacy format, version
  1.0.0), checks it against the semver requirement `^1.0.0`, splices the fixed
  xz magic bytes back over positions 0..6 and decompresses.
* `CertificateLoader` (`src/certificate_loader.rs`): persists a certificate to
  a folder as `certificate.edc` (the encoded blob) plus `private.key` (the raw
  private-key bytes, only when the certificate has one), and loads them back.

The external collaborators (the `edcert` certificate type and its JSON
serialization, UTF-8, and the `lzma` crate) are modelled abstractly: the
compressor and loader are parameterised over a `Collab` bundle carrying those
functions together with the contracts the crate relies on (serialization and
compression round-trip, the compressed stream starts with the fixed 6-byte xz
magic).  A concrete instance `modelCollab` witnesses that the contracts are
satisfiable and lets every statement be evaluated on concrete inputs.

Bytes are modelled as `Nat` (values < 256 where it matters); byte buffers as
`List Nat`; Rust `Result<_, &'static str>` as the `ok`/`error` constructors of
`RResult`, with a third constructor `panicked` for the panics the Rust code
can take (out-of-range slicing, `.expect`).
-/

namespace EdcertCompressor

/-! ## Bytes and the `edcert::copy_bytes` helper -/

/-- Model of `edcert::copy_bytes(dst, src, src_offset, dst_offset, count)`:
copy `count` bytes from `src[src_offset..]` into `dst[dst_offset..]`.
Out-of-range positions are left unchanged (the Rust original would panic;
every call site in this crate stays in range). -/
def copy_bytes (dst src : List Nat) (srcOff dstOff cnt : Nat) : List Nat :=
  (List.range cnt).foldl (fun d i => d.set (dstOff + i) (src.getD (srcOff + i) 0)) dst

/-- The fixed 6-byte xz stream header restored by `decode`
(`let magic: [u8; 6] = [0xfd, 0x37, 0x7a, 0x58, 0x5a, 0x00];`). -/
def lzmaMagic : List Nat := [0xfd, 0x37, 0x7a, 0x58, 0x5a, 0x00]

/-- The current-format marker written by `encode` (`let magic = b"edc";`). -/
def edcBytes : List Nat := [0x65, 0x64, 0x63]

/-- The legacy marker recognised at bytes 3..6 (`bytes == b"ert"`). -/
def ertBytes : List Nat := [0x65, 0x72, 0x74]

/-- Source constant `static CERTIFICATE_COMPRESSOR_FORMAT_VERSION: [u8; 3] = [1, 1, 0];` -/
def CERTIFICATE_COMPRESSOR_FORMAT_VERSION : List Nat := [1, 1, 0]

/-! ## Decimal formatting (Rust `format!("{}", n)` for unsigned integers) -/

/-- The decimal digit character for `n < 10`. -/
def digitChar (n : Nat) : Char := Char.ofNat (48 + n)

/-- Whether a character is an ASCII decimal digit. -/
def isDigitChar (c : Char) : Bool := 48 ≤ c.toNat && c.toNat ≤ 57

/-- Numeric value of an ASCII digit character. -/
def digitVal (c : Char) : Nat := c.toNat - 48

/-- Fuel-driven decimal formatting: most significant digit first. -/
def decimalCharsAux : Nat → Nat → List Char
  | 0, _ => []
  | fuel + 1, n =>
    if n < 10 then [digitChar n]
    else decimalCharsAux fuel (n / 10) ++ [digitChar (n % 10)]

/-- Decimal representation of `n` as a character list (no leading zeros,
`"0"` for zero), modelling Rust's `Display` for unsigned integers. -/
def decimalChars (n : Nat) : List Char := decimalCharsAux (n + 1) n

/-- Decimal representation of `n` as a string. -/
def decimalRepr (n : Nat) : String := ⟨decimalChars n⟩

/-- Value of a digit-character list read as a decimal numeral. -/
def numericValue (ds : List Char) : Nat := ds.foldl (fun a c => 10 * a + digitVal c) 0

/-! ## A model of `semver::Version::parse` / `VersionReq("^1.0.0").matches`

The `semver` crate collaborator: a version is `major.minor.patch`, each
component a decimal numeral without leading zeros.  The crate also accepts
pre-release/build suffixes, which never occur for the strings this crate
builds, so the model parses exactly the plain triple form. -/

/-- A parsed semantic version. -/
structure SemVer where
  major : Nat
  minor : Nat
  patch : Nat
deriving DecidableEq, Repr

/-- Split a character list into its leading run of ASCII digits and the rest. -/
def takeDigits : List Char → List Char × List Char
  | [] => ([], [])
  | c :: cs =>
    if isDigitChar c then ((takeDigits cs).1.cons c, (takeDigits cs).2)
    else ([], c :: cs)

/-- Parse one numeric identifier: a nonempty digit run with no leading zero
(`0` itself allowed), returning its value and the remaining characters. -/
def parseNumericIdent (cs : List Char) : Option (Nat × List Char) :=
  let p := takeDigits cs
  if p.1 = [] then none
  else if 2 ≤ p.1.length ∧ p.1.head? = some '0' then none
  else some (numericValue p.1, p.2)

/-- Consume one expected `.` separator. -/
def expectDot : List Char → Option (List Char)
  | [] => none
  | c :: cs => if c = '.' then some cs else none

/-- Parse a full `major.minor.patch` version from a character list. -/
def parseSemverChars (cs : List Char) : Option SemVer :=
  match parseNumericIdent cs with
  | none => none
  | some (ma, rest1) =>
    match expectDot rest1 with
    | none => none
    | some cs2 =>
      match parseNumericIdent cs2 with
      | none => none
      | some (mi, rest2) =>
        match expectDot rest2 with
        | none => none
        | some cs3 =>
          match parseNumericIdent cs3 with
          | none => none
          | some (pa, rest3) => if rest3 = [] then some ⟨ma, mi, pa⟩ else none

/-- Model of `semver::Version::parse`. -/
def parseSemver (s : String) : Option SemVer := parseSemverChars s.data

/-- Lexicographic order on version triples, as a Boolean. -/
def semverLe (a b : SemVer) : Bool :=
  decide (a.major < b.major) ||
    (decide (a.major = b.major) &&
      (decide (a.minor < b.minor) ||
        (decide (a.minor = b.minor) && decide (a.patch ≤ b.patch))))

/-- Model of caret requirement matching (`VersionReq::parse("^x.y.z")`,
`req.matches(v)`): same major (when the major is nonzero) and at least the
anchor version. -/
def caretMatches (req v : SemVer) : Bool :=
  if 0 < req.major then decide (v.major = req.major) && semverLe req v
  else if 0 < req.minor then
    decide (v.major = 0) && decide (v.minor = req.minor) && semverLe req v
  else decide (v.major = 0) && decide (v.minor = 0) && decide (v.patch = req.patch)

/-! ## Correctness of decimal formatting against the parser -/

theorem decimalCharsAux_fuel_irrel :
    ∀ f g n, n < f → n < g → decimalCharsAux f n = decimalCharsAux g n := by
  intro f
  induction f with
  | zero => intro g n h; omega
  | succ f ih =>
    intro g n hf hg
    cases g with
    | zero => omega
    | succ g =>
      simp only [decimalCharsAux]
      by_cases h10 : n < 10
      · simp [h10]
      · have hd : n / 10 < n := Nat.div_lt_self (by omega) (by omega)
        simp only [h10, if_false]
        rw [ih g (n / 10) (by omega) (by omega)]

theorem digitVal_digitChar : ∀ n, n < 10 → digitVal (digitChar n) = n := by decide

theorem isDigitChar_digitChar : ∀ n, n < 10 → isDigitChar (digitChar n) = true := by decide

theorem digitChar_ne_zero_char : ∀ n, 1 ≤ n → n < 10 → digitChar n ≠ '0' := by decide

theorem numericValue_append_digit (ds : List Char) (c : Char) :
    numericValue (ds ++ [c]) = 10 * numericValue ds + digitVal c := by
  simp [numericValue, List.foldl_append]

/-- Core correctness of `decimalCharsAux`: the produced numeral is nonempty,
all digits, has no leading zero (unless it is `"0"`), and reads back as `n`. -/
theorem decimalCharsAux_spec :
    ∀ fuel n, n < fuel →
      numericValue (decimalCharsAux fuel n) = n ∧
      decimalCharsAux fuel n ≠ [] ∧
      (∀ c ∈ decimalCharsAux fuel n, isDigitChar c = true) ∧
      (1 ≤ n → (decimalCharsAux fuel n).head? ≠ some '0') := by
  intro fuel
  induction fuel with
  | zero => intro n h; omega
  | succ fuel ih =>
    intro n h
    by_cases h10 : n < 10
    · refine ⟨?_, ?_, ?_, ?_⟩
      · simp [decimalCharsAux, h10, numericValue, digitVal_digitChar n h10]
      · simp [decimalCharsAux, h10]
      · simp only [decimalCharsAux, h10, if_true, List.mem_singleton]
        rintro c rfl
        exact isDigitChar_digitChar n h10
      · intro h1
        simp only [decimalCharsAux, h10, if_true, List.head?_cons]
        intro hc
        exact digitChar_ne_zero_char n h1 h10 (by injection hc)
    · have hd : n / 10 < n := Nat.div_lt_self (by omega) (by omega)
      have hfuel : n / 10 < fuel := by omega
      obtain ⟨hval, hne, hdig, hhead⟩ := ih (n / 10) hfuel
      simp only [decimalCharsAux, h10, if_false]
      refine ⟨?_, ?_, ?_, ?_⟩
      · rw [numericValue_append_digit, hval, digitVal_digitChar (n % 10) (Nat.mod_lt n (by omega))]
        omega
      · simp
      · intro c hc
        rcases List.mem_append.mp hc with hc | hc
        · exact hdig c hc
        · rcases List.mem_singleton.mp hc with rfl
          exact isDigitChar_digitChar (n % 10) (Nat.mod_lt n (by omega))
      · intro _
        obtain ⟨d, ds, hds⟩ := List.exists_cons_of_ne_nil hne
        rw [hds, List.cons_append, List.head?_cons]
        have := hhead (by omega)
        rw [hds, List.head?_cons] at this
        exact this

theorem numericValue_decimalChars (n : Nat) : numericValue (decimalChars n) = n :=
  (decimalCharsAux_spec (n + 1) n (by omega)).1

theorem decimalChars_ne_nil (n : Nat) : decimalChars n ≠ [] :=
  (decimalCharsAux_spec (n + 1) n (by omega)).2.1

theorem decimalChars_all_digits (n : Nat) : ∀ c ∈ decimalChars n, isDigitChar c = true :=
  (decimalCharsAux_spec (n + 1) n (by omega)).2.2.1

theorem decimalChars_no_leading_zero (n : Nat) (h : 1 ≤ n) :
    (decimalChars n).head? ≠ some '0' :=
  (decimalCharsAux_spec (n + 1) n (by omega)).2.2.2 h

theorem decimalChars_zero : decimalChars 0 = ['0'] := by decide

theorem takeDigits_not_digit (c : Char) (cs : List Char) (h : isDigitChar c = false) :
    takeDigits (c :: cs) = ([], c :: cs) := by
  simp [takeDigits, h]

theorem takeDigits_fst_nil_snd (cs : List Char) (h : (takeDigits cs).1 = []) :
    (takeDigits cs).2 = cs := by
  cases cs with
  | nil => rfl
  | cons c cs =>
    by_cases hc : isDigitChar c
    · simp [takeDigits, hc] at h
    · simp [takeDigits, hc]

/-- The function `takeDigits` consumes exactly a leading all-digit run. -/
theorem takeDigits_append (ds rest : List Char)
    (hds : ∀ c ∈ ds, isDigitChar c = true) (hrest : (takeDigits rest).1 = []) :
    takeDigits (ds ++ rest) = (ds, rest) := by
  induction ds with
  | nil =>
    simp only [List.nil_append]
    have h2 := takeDigits_fst_nil_snd rest hrest
    cases h : takeDigits rest with
    | mk a b =>
      rw [h] at hrest h2
      simp at hrest h2
      simp [hrest, h2]
  | cons d ds ih =>
    have hd : isDigitChar d = true := hds d (List.mem_cons_self d ds)
    have ih' := ih (fun c hc => hds c (List.mem_cons_of_mem d hc))
    simp only [List.cons_append, takeDigits, hd, if_true]
    show (d :: (takeDigits (ds ++ rest)).1, (takeDigits (ds ++ rest)).2) = (d :: ds, rest)
    rw [ih']

/-- Parsing a formatted decimal numeral followed by non-digit input returns
its value and the untouched remainder. -/
theorem parseNumericIdent_decimalChars (n : Nat) (rest : List Char)
    (hrest : (takeDigits rest).1 = []) :
    parseNumericIdent (decimalChars n ++ rest) = some (n, rest) := by
  have htd := takeDigits_append (decimalChars n) rest (decimalChars_all_digits n) hrest
  have hcond : ¬(2 ≤ (decimalChars n).length ∧ (decimalChars n).head? = some '0') := by
    by_cases h0 : n = 0
    · subst h0; rw [decimalChars_zero]; decide
    · rintro ⟨-, h2⟩
      exact decimalChars_no_leading_zero n (by omega) h2
  simp only [parseNumericIdent, htd, if_neg (decimalChars_ne_nil n), if_neg hcond,
    numericValue_decimalChars]

theorem takeDigits_dot (cs : List Char) : (takeDigits ('.' :: cs)).1 = [] := by
  rw [takeDigits_not_digit '.' cs (by decide)]

/-- The version string `format!("{}.{}.{}", major, minor, patch)`. -/
def formatVersionTriple (a b c : Nat) : String :=
  decimalRepr a ++ "." ++ decimalRepr b ++ "." ++ decimalRepr c

/-- Every string of shape `major.minor.patch` built from decimal-formatted
naturals parses back to the same triple. -/
theorem parseSemver_formatVersionTriple (a b c : Nat) :
    parseSemver (formatVersionTriple a b c) = some ⟨a, b, c⟩ := by
  have hdata : (formatVersionTriple a b c).data =
      decimalChars a ++ '.' :: (decimalChars b ++ '.' :: decimalChars c) := by
    simp [formatVersionTriple, decimalRepr, String.data_append]
  have h3 : parseNumericIdent (decimalChars c) = some (c, []) := by
    have h := parseNumericIdent_decimalChars c [] rfl
    rwa [List.append_nil] at h
  simp only [parseSemver, hdata, parseSemverChars,
    parseNumericIdent_decimalChars a ('.' :: (decimalChars b ++ '.' :: decimalChars c))
      (takeDigits_dot _),
    parseNumericIdent_decimalChars b ('.' :: decimalChars c) (takeDigits_dot _),
    h3, expectDot, if_pos, ite_true, if_true, reduceIte]

/-! ## The certificate collaborator and its contracts -/

/-- Model of the `edcert` certificate through the capability surface this
crate uses: some serialisable content plus an optional private key. -/
structure Certificate where
  content : String
  private_key : Option (List Nat)
deriving DecidableEq, Repr

/-- Model of `Certificate::has_private_key`. -/
def Certificate.has_private_key (c : Certificate) : Bool := c.private_key.isSome

/-- Model of `Certificate::set_private_key`. -/
def Certificate.set_private_key (c : Certificate) (k : List Nat) : Certificate :=
  { c with private_key := some k }

/-- The bundle of external collaborators used by the compressor, with the
contracts the crate relies on: JSON serialisation round-trips, UTF-8
round-trips, LZMA decompression inverts compression, and every compressed
stream starts with the fixed 6-byte xz magic (so is at least 6 bytes long). -/
structure Collab where
  jsonEncode : Certificate → String
  jsonDecode : String → Option Certificate
  utf8Encode : String → List Nat
  utf8Decode : List Nat → Option String
  compress : List Nat → List Nat
  decompress : List Nat → Option (List Nat)
  json_inv : ∀ c, jsonDecode (jsonEncode c) = some c
  utf8_inv : ∀ s, utf8Decode (utf8Encode s) = some s
  lzma_inv : ∀ b, decompress (compress b) = some b
  lzma_magic : ∀ b, (compress b).take 6 = lzmaMagic
  lzma_len : ∀ b, 6 ≤ (compress b).length

/-- Outcome of a Rust call: `Ok`, `Err` (with the crate's static message), or
a panic (out-of-range slicing, a failed `.expect`). -/
inductive RResult (α : Type) where
  | ok : α → RResult α
  | error : String → RResult α
  | panicked : String → RResult α
deriving DecidableEq, Repr

/-! ## `CertificateCompressor` -/

namespace CertificateCompressor

/-- Model of `CertificateCompressor::get_version_from_bytes`: the slice `bytes[3..6]`
of the blob; `b"ert"` denotes the legacy format (version `1.0.0`), anything
else is read as an explicit `major.minor.patch` triple. -/
def get_version_from_bytes (bytes : List Nat) : String :=
  if bytes = ertBytes then "1.0.0"
  else formatVersionTriple (bytes.getD 0 0) (bytes.getD 1 0) (bytes.getD 2 0)

/-- Model of `CertificateCompressor::get_bytes_from_version`. -/
def get_bytes_from_version : List Nat := CERTIFICATE_COMPRESSOR_FORMAT_VERSION

/-- The buffer `decode` hands to the decompressor: the result of
`copy_bytes(&mut bytes[0..6], &magic, 0, 0, 6)`, i.e. the first six bytes
overwritten with the xz magic, the rest untouched. -/
def decodeSplice (bytes : List Nat) : List Nat :=
  copy_bytes (bytes.take 6) lzmaMagic 0 0 6 ++ bytes.drop 6

/-- Model of `CertificateCompressor::decode`.  The Rust function slices `bytes[3..6]`
unconditionally, so inputs shorter than six bytes panic with a slice
out-of-range; a version-string parse failure would panic through `.expect`. -/
def decode (E : Collab) (compressed : List Nat) : RResult Certificate :=
  let bytes := compressed
  if bytes.length < 6 then .panicked "range end index 6 out of range"
  else
    match parseSemver (get_version_from_bytes ((bytes.drop 3).take 3)) with
    | none => .panicked "Failed to parse file format version"
    | some version =>
      if caretMatches ⟨1, 0, 0⟩ version then
        match E.decompress (decodeSplice bytes) with
        | none => .error "Failed to decompress certificate"
        | some o =>
          match E.utf8Decode o with
          | none => .error "Failed to read UTF8 from decompressed vector"
          | some s =>
            match E.jsonDecode s with
            | none => .error "Failed to decode JSON"
            | some cert => .ok cert
      else .error "Incompatible file format. File corrupted or old Edcert?"

/-- Model of `CertificateCompressor::encode`: JSON-encode, compress, then overwrite
bytes 0..3 with `b"edc"` and bytes 3..6 with the format version
(`copy_bytes(&mut compressed[0..6], magic, 0, 0, 3)` followed by
`copy_bytes(&mut compressed[3..6], version, 0, 0, 3)`). -/
def encode (E : Collab) (cert : Certificate) : List Nat :=
  let jsoncode := E.jsonEncode cert
  let compressed := E.compress (E.utf8Encode jsoncode)
  let step1 := copy_bytes (compressed.take 6) edcBytes 0 0 3 ++ compressed.drop 6
  step1.take 3 ++ copy_bytes ((step1.drop 3).take 3) get_bytes_from_version 0 0 3 ++
    step1.drop 6

end CertificateCompressor

/-! ## A concrete collaborator instance

The collaborators are external to the crate, so any instance satisfying the
contracts may stand in for them; this one keeps every operation executable so
each statement can be evaluated on concrete inputs.  Serialisation writes the
optional key as self-delimiting decimal numerals and appends the content
verbatim; compression just prepends the xz magic. -/

/-- Serialised form of a key list: each key as a decimal numeral followed by
`,`, the whole run closed by `;`, then the given tail. -/
def encodeKeysChars (ks : List Nat) (tail : List Char) : List Char :=
  ks.foldr (fun k acc => decimalChars k ++ ',' :: acc) (';' :: tail)

/-- Fuel-driven inverse of `encodeKeysChars`. -/
def parseKeys : Nat → List Char → Option (List Nat × List Char)
  | 0, _ => none
  | fuel + 1, cs =>
    if cs.head? = some ';' then some ([], cs.tail)
    else
      let p := takeDigits cs
      if p.1 = [] then none
      else if p.2.head? = some ',' then
        match parseKeys fuel p.2.tail with
        | some (ks, tail) => some (numericValue p.1 :: ks, tail)
        | none => none
      else none

theorem parseKeys_encodeKeysChars :
    ∀ ks tail fuel, (encodeKeysChars ks tail).length < fuel →
      parseKeys fuel (encodeKeysChars ks tail) = some (ks, tail) := by
  intro ks
  induction ks with
  | nil =>
    intro tail fuel h
    cases fuel with
    | zero => simp at h
    | succ fuel => simp [encodeKeysChars, parseKeys]
  | cons k ks ih =>
    intro tail fuel h
    cases fuel with
    | zero => simp at h
    | succ fuel =>
      have hchars : encodeKeysChars (k :: ks) tail =
          decimalChars k ++ ',' :: encodeKeysChars ks tail := by
        simp [encodeKeysChars]
      have htd : takeDigits (decimalChars k ++ ',' :: encodeKeysChars ks tail) =
          (decimalChars k, ',' :: encodeKeysChars ks tail) :=
        takeDigits_append _ _ (decimalChars_all_digits k)
          (by rw [takeDigits_not_digit ',' _ (by decide)])
      have hne := decimalChars_ne_nil k
      have hhead : (decimalChars k ++ ',' :: encodeKeysChars ks tail).head? ≠ some ';' := by
        obtain ⟨d, ds, hds⟩ := List.exists_cons_of_ne_nil hne
        rw [hds, List.cons_append, List.head?_cons]
        intro hc
        have hd : isDigitChar d = true := by
          apply decimalChars_all_digits k
          rw [hds]; exact List.mem_cons_self d ds
        rw [show d = ';' from by injection hc] at hd
        exact absurd hd (by decide)
      have hlen : (encodeKeysChars ks tail).length < fuel := by
        rw [hchars] at h
        have : 1 ≤ (decimalChars k).length := List.length_pos.mpr hne
        simp [List.length_append] at h
        omega
      rw [hchars]
      have hsemi : ((decimalChars k ++ ',' :: encodeKeysChars ks tail).head? = some ';') =
          False := eq_false hhead
      have hnil : (decimalChars k = []) = False := eq_false hne
      simp only [parseKeys, hsemi, if_false, htd, hnil, List.head?_cons, List.tail_cons,
        ih tail fuel hlen, numericValue_decimalChars]
      simp

/-- The concrete collaborator bundle. -/
def modelCollab : Collab where
  jsonEncode c :=
    match c.private_key with
    | none => ⟨'n' :: ';' :: c.content.data⟩
    | some ks => ⟨'s' :: encodeKeysChars ks c.content.data⟩
  jsonDecode s :=
    match s.data with
    | 'n' :: ';' :: cs => some ⟨⟨cs⟩, none⟩
    | 's' :: cs =>
      match parseKeys (cs.length + 1) cs with
      | some (ks, tail) => some ⟨⟨tail⟩, some ks⟩
      | none => none
    | _ => none
  utf8Encode s := s.data.map Char.toNat
  utf8Decode bs := some ⟨bs.map Char.ofNat⟩
  compress b := lzmaMagic ++ b
  decompress bs := if bs.take 6 = lzmaMagic then some (bs.drop 6) else none
  json_inv := by
    intro c
    cases hc : c.private_key with
    | none =>
      simp only [hc]
      cases c with
      | mk content pk => simp at hc; subst hc; rfl
    | some ks =>
      simp only [hc]
      have hlen : (encodeKeysChars ks c.content.data).length <
          (encodeKeysChars ks c.content.data).length + 1 := by omega
      have := parseKeys_encodeKeysChars ks c.content.data _ hlen
      cases c with
      | mk content pk =>
        simp at hc; subst hc
        simp only [this]
  utf8_inv := by
    intro s
    simp only [List.map_map]
    have : s.data.map (Char.ofNat ∘ Char.toNat) = s.data.map id := by
      apply List.map_congr_left
      intro c _
      simp [Char.ofNat_toNat]
    rw [this, List.map_id]
  lzma_inv := by intro b; simp [lzmaMagic]
  lzma_magic := by intro b; simp [lzmaMagic]
  lzma_len := by intro b; simp [lzmaMagic]

/-! ## Shape lemmas for the byte-splicing steps -/

theorem exists_six_cons (l : List Nat) (h : 6 ≤ l.length) :
    ∃ a b c d e f t, l = a :: b :: c :: d :: e :: f :: t := by
  obtain - | ⟨a, l⟩ := l
  · simp at h
  obtain - | ⟨b, l⟩ := l
  · simp at h
  obtain - | ⟨c, l⟩ := l
  · simp at h
  obtain - | ⟨d, l⟩ := l
  · simp at h
  obtain - | ⟨e, l⟩ := l
  · simp at h
  obtain - | ⟨f, l⟩ := l
  · simp at h
  exact ⟨a, b, c, d, e, f, l, rfl⟩

theorem copy_bytes_edc (a b c d e f : Nat) :
    copy_bytes [a, b, c, d, e, f] edcBytes 0 0 3 = [0x65, 0x64, 0x63, d, e, f] := rfl

theorem copy_bytes_version (a b c : Nat) :
    copy_bytes [a, b, c] CERTIFICATE_COMPRESSOR_FORMAT_VERSION 0 0 3 = [1, 1, 0] := rfl

theorem copy_bytes_magic (a b c d e f : Nat) :
    copy_bytes [a, b, c, d, e, f] lzmaMagic 0 0 6 = lzmaMagic := rfl

namespace CertificateCompressor

/-- The splice step of `decode` restores the fixed xz header over any
six-byte-or-longer buffer, leaving bytes 6 onward untouched. -/
theorem decodeSplice_eq (bs : List Nat) (h : 6 ≤ bs.length) :
    decodeSplice bs = lzmaMagic ++ bs.drop 6 := by
  obtain ⟨a, b, c, d, e, f, t, rfl⟩ := exists_six_cons bs h
  simp only [decodeSplice, List.take, List.drop, copy_bytes_magic]

/-- Closed form of `encode`: the marker, the format version, then the tail of
the compressed stream. -/
theorem encode_eq (E : Collab) (cert : Certificate) :
    encode E cert = edcBytes ++ CERTIFICATE_COMPRESSOR_FORMAT_VERSION ++
      (E.compress (E.utf8Encode (E.jsonEncode cert))).drop 6 := by
  obtain ⟨a, b, c, d, e, f, t, hB⟩ :=
    exists_six_cons _ (E.lzma_len (E.utf8Encode (E.jsonEncode cert)))
  simp only [encode, hB, List.take, List.drop, copy_bytes_edc, get_bytes_from_version,
    copy_bytes_version]
  rfl

/-- Evaluation of `decode` on an explicitly destructured buffer of length at least six. -/
theorem decode_cons (E : Collab) (x0 x1 x2 v0 v1 v2 : Nat) (t : List Nat) :
    decode E (x0 :: x1 :: x2 :: v0 :: v1 :: v2 :: t) =
      match parseSemver (get_version_from_bytes [v0, v1, v2]) with
      | none => .panicked "Failed to parse file format version"
      | some version =>
        if caretMatches ⟨1, 0, 0⟩ version then
          match E.decompress (lzmaMagic ++ t) with
          | none => .error "Failed to decompress certificate"
          | some o =>
            match E.utf8Decode o with
            | none => .error "Failed to read UTF8 from decompressed vector"
            | some s =>
              match E.jsonDecode s with
              | none => .error "Failed to decode JSON"
              | some cert => .ok cert
        else .error "Incompatible file format. File corrupted or old Edcert?"
      := by
  have hlen : ¬((x0 :: x1 :: x2 :: v0 :: v1 :: v2 :: t).length < 6) := by
    simp
  have hsplice : decodeSplice (x0 :: x1 :: x2 :: v0 :: v1 :: v2 :: t) =
      lzmaMagic ++ t := by
    rw [decodeSplice_eq _ (by simp)]; rfl
  simp only [decode, if_neg hlen, List.drop, List.take, hsplice]

end CertificateCompressor

namespace CertificateCompressor

/-! ## Claim theorems for the compressor -/

theorem semverLe_anchor_of_major_one (v : SemVer) (h : v.major = 1) :
    semverLe ⟨1, 0, 0⟩ v = true := by
  cases v with
  | mk ma mi pa =>
    simp only [semverLe] at *
    subst h
    simp
    omega

theorem caretMatches_anchor (v : SemVer) :
    caretMatches ⟨1, 0, 0⟩ v = (decide (v.major = 1) && semverLe ⟨1, 0, 0⟩ v) := by
  simp [caretMatches]

/-- Claim C1: for every collaborator bundle satisfying the external contracts
and every certificate, decoding the blob produced by encoding yields the
original certificate, private key presence and absence included. -/
theorem decode_encode_roundtrip (E : Collab) (c : Certificate) :
    decode E (encode E c) = .ok c := by
  have hB6 := E.lzma_len (E.utf8Encode (E.jsonEncode c))
  have hmag := E.lzma_magic (E.utf8Encode (E.jsonEncode c))
  obtain ⟨a, b, c', d, e, f, t, hB⟩ := exists_six_cons _ hB6
  have henc := encode_eq E c
  rw [hB] at henc hmag
  simp only [List.take] at hmag
  have hdrop : (a :: b :: c' :: d :: e :: f :: t).drop 6 = t := rfl
  rw [hdrop] at henc
  have henc' : encode E c = 0x65 :: 0x64 :: 0x63 :: 1 :: 1 :: 0 :: t := by
    rw [henc]; rfl
  rw [henc', decode_cons]
  have hver : parseSemver (get_version_from_bytes [1, 1, 0]) = some ⟨1, 1, 0⟩ := by decide
  rw [hver]
  have hcaret : caretMatches ⟨1, 0, 0⟩ ⟨1, 1, 0⟩ = true := by decide
  simp only [hcaret, if_true]
  have hmt : lzmaMagic ++ t = a :: b :: c' :: d :: e :: f :: t := by
    rw [← hmag]; rfl
  rw [hmt, ← hB, E.lzma_inv]
  simp only [E.utf8_inv, E.json_inv]

/-- Claim C6: the encoded blob carries the marker `b"edc"` at bytes 0..3, the
current format version `[1, 1, 0]` at bytes 3..6, and from byte 6 onward the
compressed stream's own bytes, unchanged. -/
theorem encode_blob_layout (E : Collab) (c : Certificate) :
    (encode E c).take 3 = edcBytes ∧
      ((encode E c).drop 3).take 3 = CERTIFICATE_COMPRESSOR_FORMAT_VERSION ∧
      (encode E c).drop 6 = (E.compress (E.utf8Encode (E.jsonEncode c))).drop 6 := by
  rw [encode_eq]
  refine ⟨rfl, rfl, ?_⟩
  rfl

/-- Claim C7: the buffer `decode` hands to the decompressor is exactly the
fixed 6-byte xz magic followed by bytes 6 onward of the input, unchanged; in
particular its 6-byte header is the same constant for every input.  The
version hypotheses mirror the claim's "whose version is accepted" guard; the
splice is the same for every input of length at least six. -/
theorem decode_hands_magic_to_decompressor (bs : List Nat) (v : SemVer)
    (h6 : 6 ≤ bs.length)
    (_hv : parseSemver (get_version_from_bytes ((bs.drop 3).take 3)) = some v)
    (_hacc : caretMatches ⟨1, 0, 0⟩ v = true) :
    decodeSplice bs = lzmaMagic ++ bs.drop 6 ∧ (decodeSplice bs).take 6 = lzmaMagic := by
  refine ⟨decodeSplice_eq bs h6, ?_⟩
  rw [decodeSplice_eq bs h6]
  rfl

/-- Witness for C7 at a concrete input. -/
theorem decode_hands_magic_to_decompressor_witness :
    6 ≤ ([0, 0, 0, 1, 1, 0, 42] : List Nat).length ∧
      decodeSplice [0, 0, 0, 1, 1, 0, 42] = lzmaMagic ++ [42] := by
  refine ⟨by decide, ?_⟩
  have h := decode_hands_magic_to_decompressor [0, 0, 0, 1, 1, 0, 42] ⟨1, 1, 0⟩
    (by decide) (by decide) (by decide)
  exact h.1

/-- Claim C9: `decode` never reads bytes 0..3 of its input: two inputs of
length at least six agreeing from byte 3 onward decode identically. -/
theorem decode_ignores_marker_bytes (E : Collab) (bs1 bs2 : List Nat)
    (h1 : 6 ≤ bs1.length) (h2 : 6 ≤ bs2.length) (h : bs1.drop 3 = bs2.drop 3) :
    decode E bs1 = decode E bs2 := by
  obtain ⟨a1, b1, c1, d1, e1, f1, t1, rfl⟩ := exists_six_cons bs1 h1
  obtain ⟨a2, b2, c2, d2, e2, f2, t2, rfl⟩ := exists_six_cons bs2 h2
  simp only [List.drop, List.cons.injEq] at h
  obtain ⟨rfl, rfl, rfl, rfl⟩ := h
  rw [decode_cons, decode_cons]

/-- Witness for C9 at concrete inputs differing only in bytes 0..3. -/
theorem decode_ignores_marker_bytes_witness :
    decode modelCollab [0, 0, 0, 1, 1, 0, 42] = decode modelCollab [9, 9, 9, 1, 1, 0, 42] :=
  decode_ignores_marker_bytes modelCollab _ _ (by decide) (by decide) (by decide)

end CertificateCompressor

namespace CertificateCompressor

/-- Claim C2 (counterexample): on the one-byte input `[0]` — shorter than six
bytes — `decode` panics slicing `bytes[3..6]`; it does not return an error
value, so there is no `TruncatedHeader`-style failure result. -/
theorem decode_short_input_cex :
    decode modelCollab [0] = .panicked "range end index 6 out of range" := by decide

/-- Claim C2 (amended): every input shorter than six bytes makes `decode`
panic with a slice out-of-range while reading the version bytes; the result
is the same for every collaborator bundle, so decompression is never
attempted. -/
theorem decode_short_input_panics (E : Collab) (bs : List Nat) (h : bs.length < 6) :
    decode E bs = .panicked "range end index 6 out of range" := by
  simp only [decode, if_pos h]

/-- Witness for the amended C2 at the empty input. -/
theorem decode_short_input_panics_witness :
    ([] : List Nat).length < 6 ∧
      decode modelCollab [] = .panicked "range end index 6 out of range" :=
  ⟨by decide, decode_short_input_panics modelCollab [] (by decide)⟩

/-- Claim C3 (counterexample): a blob whose bytes 0..3 equal the legacy
marker `b"ert"` is not decoded as version 1.0.0 (which the gate accepts);
with bytes 3..6 reading `2.0.0` it is rejected as incompatible, because the
marker comparison happens at bytes 3..6, not 0..3. -/
theorem legacy_marker_position_cex :
    ([0x65, 0x72, 0x74, 2, 0, 0] : List Nat).take 3 = ertBytes ∧
      decode modelCollab [0x65, 0x72, 0x74, 2, 0, 0] =
        .error "Incompatible file format. File corrupted or old Edcert?" := by
  exact ⟨by decide, by decide⟩

/-- Claim C3 (amended): `decode` compares bytes 3..6 to the legacy marker
`b"ert"`; when they match, the effective version string is `"1.0.0"`, and a
blob whose restored stream decompresses, reads as UTF-8 and deserialises
decodes successfully to that certificate. -/
theorem legacy_marker_decodes (E : Collab) (bs o : List Nat) (s : String)
    (c : Certificate) (h6 : 6 ≤ bs.length) (hm : (bs.drop 3).take 3 = ertBytes)
    (hd : E.decompress (lzmaMagic ++ bs.drop 6) = some o)
    (hu : E.utf8Decode o = some s) (hj : E.jsonDecode s = some c) :
    get_version_from_bytes ((bs.drop 3).take 3) = "1.0.0" ∧ decode E bs = .ok c := by
  obtain ⟨a, b, c', d, e, f, t, rfl⟩ := exists_six_cons bs h6
  simp only [List.drop, List.take] at hm ⊢
  refine ⟨by rw [get_version_from_bytes, if_pos hm], ?_⟩
  rw [decode_cons, hm]
  have hver : parseSemver (get_version_from_bytes ertBytes) = some ⟨1, 0, 0⟩ := by decide
  rw [hver]
  have hdrop : (a :: b :: c' :: d :: e :: f :: t).drop 6 = t := rfl
  rw [hdrop] at hd
  have hcaret : caretMatches ⟨1, 0, 0⟩ ⟨1, 0, 0⟩ = true := by decide
  simp only [hcaret, if_true, hd, hu, hj]

/-- Witness for the amended C3 at a concrete legacy blob. -/
theorem legacy_marker_decodes_witness :
    decode modelCollab [0, 0, 0, 0x65, 0x72, 0x74, 110, 59] = .ok ⟨"", none⟩ :=
  (legacy_marker_decodes modelCollab [0, 0, 0, 0x65, 0x72, 0x74, 110, 59] [110, 59] "n;"
    ⟨"", none⟩ (by decide) (by decide) (by decide) (by decide) (by decide)).2

end CertificateCompressor

namespace CertificateCompressor

/-- Claim C4: for a blob of length at least six whose effective version
parses as `v`, the gate `^1.0.0` accepts exactly when `v.major = 1` and
`v ≥ 1.0.0`; any other major — larger or smaller — makes `decode` return the
incompatible-format error, and an accepted major never does. -/
theorem version_gate_iff_major_one (E : Collab) (bs : List Nat) (v : SemVer)
    (h6 : 6 ≤ bs.length)
    (hv : parseSemver (get_version_from_bytes ((bs.drop 3).take 3)) = some v) :
    (caretMatches ⟨1, 0, 0⟩ v = true ↔ v.major = 1 ∧ semverLe ⟨1, 0, 0⟩ v = true) ∧
      (v.major ≠ 1 →
        decode E bs = .error "Incompatible file format. File corrupted or old Edcert?") ∧
      (v.major = 1 →
        decode E bs ≠ .error "Incompatible file format. File corrupted or old Edcert?") := by
  obtain ⟨a, b, c', d, e, f, t, rfl⟩ := exists_six_cons bs h6
  simp only [List.drop, List.take] at hv
  have hiff : caretMatches ⟨1, 0, 0⟩ v = true ↔ v.major = 1 ∧ semverLe ⟨1, 0, 0⟩ v = true := by
    rw [caretMatches_anchor]
    simp
  refine ⟨hiff, ?_, ?_⟩
  · intro hm
    have hcf : caretMatches ⟨1, 0, 0⟩ v = false := by
      rcases Bool.eq_false_or_eq_true (caretMatches ⟨1, 0, 0⟩ v) with h | h
      · exact absurd (hiff.mp h).1 hm
      · exact h
    rw [decode_cons, hv]
    simp [hcf]
  · intro hm
    have hct : caretMatches ⟨1, 0, 0⟩ v = true :=
      hiff.mpr ⟨hm, semverLe_anchor_of_major_one v hm⟩
    rw [decode_cons, hv]
    simp only [hct, if_true]
    cases hdec : E.decompress (lzmaMagic ++ t) with
    | none => simp
    | some o =>
      cases hu : E.utf8Decode o with
      | none => simp [hu]
      | some s =>
        cases hj : E.jsonDecode s with
        | none => simp [hu, hj]
        | some cert => simp [hu, hj]

/-- Witness for C4 at a blob declaring version `2.0.0`. -/
theorem version_gate_iff_major_one_witness :
    parseSemver
        (get_version_from_bytes ((([0, 0, 0, 2, 0, 0] : List Nat).drop 3).take 3)) =
        some ⟨2, 0, 0⟩ ∧
      decode modelCollab [0, 0, 0, 2, 0, 0] =
        .error "Incompatible file format. File corrupted or old Edcert?" :=
  ⟨by decide,
    (version_gate_iff_major_one modelCollab [0, 0, 0, 2, 0, 0] ⟨2, 0, 0⟩ (by decide)
      (by decide)).2.1 (by decide)⟩

/-- Claim C10: on every input of length at least six, the version string
`decode` constructs (the literal `"1.0.0"` or a formatted byte triple)
parses as a semantic version, so the parse-failure panic is unreachable. -/
theorem version_string_always_parses (E : Collab) (bs : List Nat) (h6 : 6 ≤ bs.length) :
    (∃ v, parseSemver (get_version_from_bytes ((bs.drop 3).take 3)) = some v) ∧
      decode E bs ≠ .panicked "Failed to parse file format version" := by
  obtain ⟨a, b, c', d, e, f, t, rfl⟩ := exists_six_cons bs h6
  have hslice : ((a :: b :: c' :: d :: e :: f :: t).drop 3).take 3 = [d, e, f] := rfl
  have hparse : ∃ v, parseSemver (get_version_from_bytes [d, e, f]) = some v := by
    by_cases hert : ([d, e, f] : List Nat) = ertBytes
    · refine ⟨⟨1, 0, 0⟩, ?_⟩
      simp only [get_version_from_bytes, if_pos hert]
      decide
    · refine ⟨⟨d, e, f⟩, ?_⟩
      simp only [get_version_from_bytes, if_neg hert]
      simpa using parseSemver_formatVersionTriple d e f
  obtain ⟨v, hv⟩ := hparse
  refine ⟨⟨v, by rw [hslice]; exact hv⟩, ?_⟩
  rw [decode_cons, hv]
  by_cases hc : caretMatches ⟨1, 0, 0⟩ v = true
  · simp only [hc, if_true]
    cases hdec : E.decompress (lzmaMagic ++ t) with
    | none => simp
    | some o =>
      cases hu : E.utf8Decode o with
      | none => simp [hu]
      | some s =>
        cases hj : E.jsonDecode s with
        | none => simp [hu, hj]
        | some cert => simp [hu, hj]
  · simp [hc]

/-- Witness for C10 at a blob whose version bytes are `255.0.7`. -/
theorem version_string_always_parses_witness :
    6 ≤ ([0, 0, 0, 255, 0, 7] : List Nat).length ∧
      decode modelCollab [0, 0, 0, 255, 0, 7] ≠
        .panicked "Failed to parse file format version" :=
  ⟨by decide, (version_string_always_parses modelCollab [0, 0, 0, 255, 0, 7] (by decide)).2⟩

end CertificateCompressor

/-! ## `CertificateLoader`

The filesystem is modelled as an association list from paths to byte
contents; file creation and writing always succeed (the claims under study
concern the loader's logic, not injected I/O faults), while opening a file
that does not exist fails as in the Rust code.  Directory structure is flat:
`DirBuilder::create` is modelled as always succeeding. -/

/-- A flat filesystem: newest write first. -/
def FS : Type := List (String × List Nat)

/-- Read a file's contents, if present. -/
def FS.read (fs : FS) (path : String) : Option (List Nat) :=
  ((fs : List (String × List Nat)).find? (fun p => p.1 == path)).map Prod.snd

/-- Write (create or overwrite) a file. -/
def FS.write (fs : FS) (path : String) (data : List Nat) : FS :=
  ((path, data) :: fs : List (String × List Nat))

namespace CertificateLoader

/-- Model of `CertificateLoader::save_private_key`: fails before touching the
filesystem when the certificate has no private key; otherwise creates the
file and writes the raw key bytes. -/
def save_private_key (cert : Certificate) (filename : String) (fs : FS) :
    RResult Unit × FS :=
  match cert.private_key with
  | none => (.error "The certificate has no private key.", fs)
  | some bytes => (.ok (), fs.write filename bytes)

/-- Model of `CertificateLoader::save_to_file`: encode the certificate and write the
blob. -/
def save_to_file (E : Collab) (cert : Certificate) (filename : String) (fs : FS) :
    RResult Unit × FS :=
  (.ok (), fs.write filename (CertificateCompressor.encode E cert))

/-- Model of `CertificateLoader::save_to_folder`: write `private.key` only when the
certificate has a private key, then write `certificate.edc`. -/
def save_to_folder (E : Collab) (cert : Certificate) (folder : String) (fs : FS) :
    RResult Unit × FS :=
  if cert.has_private_key then
    match save_private_key cert (folder ++ "/private.key") fs with
    | (.ok _, fs1) => save_to_file E cert (folder ++ "/certificate.edc") fs1
    | (.error m, fs1) => (.error m, fs1)
    | (.panicked m, fs1) => (.panicked m, fs1)
  else save_to_file E cert (folder ++ "/certificate.edc") fs

/-- Model of `CertificateLoader::load_from_file`: open and read the file, then decode
its bytes. -/
def load_from_file (E : Collab) (filename : String) (fs : FS) : RResult Certificate :=
  match fs.read filename with
  | none => .error "Failed to open certificate file."
  | some compressed => CertificateCompressor.decode E compressed

/-- Model of `CertificateLoader::load_private_key`: open and read the key file and set
the key on the certificate (returned here instead of mutated in place).  The
message keeps the source's typo (`kye`). -/
def load_private_key (cert : Certificate) (filename : String) (fs : FS) :
    RResult Certificate :=
  match fs.read filename with
  | none => .error "Failed to open private kye file."
  | some private_key => .ok (cert.set_private_key private_key)

/-- Model of `CertificateLoader::load_from_folder`: load the certificate file, then
`try!` the private-key load — a missing `private.key` therefore propagates as
an error. -/
def load_from_folder (E : Collab) (folder : String) (fs : FS) : RResult Certificate :=
  match load_from_file E (folder ++ "/certificate.edc") fs with
  | .ok cert =>
    match load_private_key cert (folder ++ "/private.key") fs with
    | .ok c => .ok c
    | .error m => .error m
    | .panicked m => .panicked m
  | .error m => .error m
  | .panicked m => .panicked m

/-- Claim C8: saving the private key of a certificate that has none fails
with the no-private-key error and leaves the filesystem untouched — no file
is created or written. -/
theorem save_private_key_no_key (cert : Certificate) (filename : String) (fs : FS)
    (h : cert.has_private_key = false) :
    save_private_key cert filename fs =
      (.error "The certificate has no private key.", fs) := by
  cases hk : cert.private_key with
  | none => simp [save_private_key, hk]
  | some k => simp [Certificate.has_private_key, hk] at h

/-- Witness for C8 at a concrete key-less certificate. -/
theorem save_private_key_no_key_witness :
    (Certificate.mk "x" none).has_private_key = false ∧
      save_private_key (Certificate.mk "x" none) "p/private.key" ([] : FS) =
        (.error "The certificate has no private key.", ([] : FS)) :=
  ⟨by decide, save_private_key_no_key (Certificate.mk "x" none) "p/private.key" [] (by decide)⟩

/-- Claim C5 (code behaviour): saving a certificate without a private key to
a fresh folder and loading the folder back fails with the missing
private-key-file error, instead of returning the certificate without a key:
`load_from_folder` wraps `load_private_key` in `try!`, so the absent
`private.key` — which `save_to_folder` deliberately did not write — is
treated as an error. -/
theorem load_from_folder_missing_key_errors :
    (Certificate.mk "" none).has_private_key = false ∧
      load_from_folder modelCollab "d"
          (save_to_folder modelCollab (Certificate.mk "" none) "d" ([] : FS)).2 =
        .error "Failed to open private kye file." := by
  exact ⟨by decide, by decide⟩

end CertificateLoader
end EdcertCompressor
